import Mathlib

/-!
# A verification development for `blackknifeforth`

This file is a shallow embedding, in Lean 4, of the single-file Forth-style
interpreter `src/blackknifeforth.c`, together with theorems checking the
program's natural-language specification against it.

Modelling conventions, chosen once and used throughout:

* The C `Value` union is untyped; here it is a tagged sum.  Reads of a union
  field other than the one last written are unspecified in the C program and
  never occur on the executions the theorems talk about; the accessor
  functions give such reads a fixed default and say so in their doc comments.
* C pointers are modelled by indices: a `Word *` becomes the index of the
  word in the allocation order (`heap`), a `Value *` into a word's body
  becomes a pair (word index, cell index).  Null pointers become `none`.
* Machine integers (`int32_t`) are modelled as `Int` with an explicit
  32-bit wrap applied where the C program performs arithmetic.
* The recursive interpreter `execute_word` is modelled with an explicit
  fuel parameter; the C recursion is bounded only by the host call stack.
* `printf` output to stdout is accumulated in an `out : List Char` field;
  diagnostics written to stderr by the three `error*` functions are
  accumulated as `ErrMsg` events (the line/column text of verbose mode
  affects only the wording of the diagnostic and is not modelled).
-/

namespace BKF

/-- Two's-complement wrap of an integer to the `int32_t` range, the type the
C program uses for all numeric cells. -/
def wrap32 (n : Int) : Int := (n + 2 ^ 31) % 2 ^ 32 - 2 ^ 31

/-- The bit pattern of an `int32_t` read as an unsigned 32-bit number, used
to model the C bitwise operators `& | ^` and the `%X` print format. -/
def toU32 (n : Int) : Nat := (n % 2 ^ 32).toNat

/-- An unsigned 32-bit bit pattern read back as an `int32_t`. -/
def ofU32 (n : Nat) : Int := wrap32 (Int.ofNat n)

/-- The `Value` union of the C program, as a tagged sum.  `num` is the
`i32 num` field, `ch` the `char ch` field, `xt` the `struct word *xt` field
(a possibly-null pointer, modelled as an optional index into the allocation
order), and `addr` the `union value *addr` field (every address the program
ever creates points into a word's body, so it is modelled as a word index
paired with a cell index). -/
inductive Value where
  | num (n : Int)
  | ch (c : Char)
  | xt (w : Option Nat)
  | addr (wid idx : Nat)
deriving DecidableEq

/-- Read the `num` field of a cell.  For a cell last written through another
union member the C program would reinterpret the raw bytes (an unspecified
value); the executions proved about below never do that, and the accessor
returns the character code for `ch` and `0` otherwise. -/
def Value.getNum : Value → Int
  | .num n => n
  | .ch c => c.toNat
  | .xt _ => 0
  | .addr _ _ => 0

/-- Read the `ch` field of a cell; cross-member reads (unspecified in C,
unused in the proofs) take the low byte of a number and `0` otherwise. -/
def Value.getCh : Value → Char
  | .ch c => c
  | .num n => Char.ofNat (n % 256).toNat
  | _ => Char.ofNat 0

/-- Read the `xt` field of a cell; a cross-member read (unspecified in C,
unused in the proofs) yields the null pointer. -/
def Value.getXt : Value → Option Nat
  | .xt w => w
  | _ => none

/-- Read the `addr` field of a cell; a cross-member read (unspecified in C,
unused in the proofs) yields no address. -/
def Value.getAddr : Value → Option (Nat × Nat)
  | .addr w i => some (w, i)
  | _ => none

/-!
## The stack (`DataStack`)

The C `DataStack` is a growable array of cells, index 0 first-pushed.  It is
modelled as a `List Value` with the same orientation: index 0 is the bottom
(or, for a word body, the first instruction), and a push appends at the end.
Capacity management and the doubling reallocation are invisible here.
-/

/-- `ds_push`: append a cell at the top end of a stack. -/
def ds_push (ds : List Value) (v : Value) : List Value := ds ++ [v]

/-- `ds_pop`: remove and return the last (top) cell, or report underflow by
`none` (the C function's `-1` return, which leaves the output cell
untouched). -/
def ds_pop : List Value → Option (Value × List Value)
  | [] => none
  | v :: rest =>
    match ds_pop rest with
    | none => some (v, [])
    | some (top, rest') => some (top, v :: rest')

/-!
## Value parsing (`value_read`)
-/

/-- The digit test `isdigit` applied by the token classifier. -/
def isDigitC (c : Char) : Bool := '0' ≤ c && c ≤ '9'

/-- The digit-accumulation loop of `value_read_num`: on a non-digit the C
loop sets `*ok = false` and breaks, keeping the digits read so far. -/
def read_num_loop : List Char → Int → Bool → Int × Bool
  | [], n, ok => (n, ok)
  | c :: rest, n, ok =>
    if !isDigitC c then (n, false)
    else read_num_loop rest (wrap32 (n * 10 + ((c.toNat : Int) - 48))) ok

/-- `value_read_num`: an optional leading `-` followed by digits, with
`int32_t` wrap both while accumulating and at the final negation. -/
def value_read_num (sv : List Char) : Value × Bool :=
  match sv with
  | '-' :: rest =>
    let (n, ok) := read_num_loop rest 0 true
    (Value.num (wrap32 (-n)), ok)
  | _ =>
    let (n, ok) := read_num_loop sv 0 true
    (Value.num n, ok)

/-- `value_read_ch`: accept exactly a three-byte token whose third byte is a
quote, yielding the middle byte.  For a token of one or two bytes the C code
inspects the byte just past the token, which — tokens being maximal runs of
non-whitespace in a NUL-terminated buffer — is whitespace or NUL, never a
quote, so those shapes fail exactly as the catch-all here does. -/
def value_read_ch (sv : List Char) : Value × Bool :=
  match sv with
  | [_, c, q2] => if q2 = '\'' then (Value.ch c, true) else (Value.ch (Char.ofNat 0), false)
  | _ => (Value.ch (Char.ofNat 0), false)

/-- `value_read`: classify a token not found in the dictionary.  The empty
token never reaches this function (both callers skip it). -/
def value_read (sv : List Char) : Value × Bool :=
  match sv with
  | [] => (Value.num 0, false)
  | c :: _ =>
    if c = '-' || isDigitC c then value_read_num sv
    else if c = '\'' then value_read_ch sv
    else (Value.num 0, false)

/-!
## Words and the dictionary
-/

/-- `FLAG_code`: the word is natively implemented. -/
def FLAG_code : Nat := 1
/-- `FLAG_immediate`: the word executes at compile time. -/
def FLAG_immediate : Nat := 2
/-- `FLAG_hidden`: the word is skipped by dictionary lookup. -/
def FLAG_hidden : Nat := 4
/-- `FLAG_comp_only`: the word is only valid inside a definition. -/
def FLAG_comp_only : Nat := 8

/-- The `check_flag` macro: test a bit of a flag set. -/
def check_flag (flags f : Nat) : Bool := flags.land f != 0

/-- The natively implemented operations, one constructor per `w_*` function
registered by `load_builtin`.  The function bodies themselves are given by
`execPrim` below. -/
inductive Prim where
  | pExit | pPush | pDefine | pQuote | pEnd | pCompile | pImmediate
  | pConstant | pVariable | pFetch | pStore
  | pDup | pSwap | pDrop | pOver | pRot
  | pPrint | pPrintU | pPrintCh | pEndline | pDumpDs
  | pAdd | pSub | pMul | pDiv
  | pLess | pLessEq | pGreater | pGreaterEq | pEquals | pNotEq
  | pAnd | pOr | pXor
deriving DecidableEq

/-- A dictionary entry (`struct word`).  The C `union { code; colon; }` is
modelled by carrying both members: `code` is `some` exactly for words
created with `FLAG_code`, and `colon` is meaningful exactly for the others.
The `prev` pointer is not a field here: the chain order is kept separately
(see `Processor.dict`), matching the fact that in the C program the chain
order is exactly reverse allocation order. -/
structure Word where
  name : List Char
  flags : Nat
  code : Option Prim
  colon : List Value
deriving DecidableEq

/-- Case-insensitive name equality: the C lookup compares lengths and then
uses `strncasecmp`, which for these ASCII names is equality after lowering
each byte. -/
def nameEq (a b : List Char) : Bool := a.map Char.toLower = b.map Char.toLower

/-!
## Diagnostics
-/

/-- One stderr diagnostic: `msg` from `error`, `undef` from `error_undef`,
`compOnly` from `error_comp_only`. -/
inductive ErrMsg where
  | msg (s : List Char)
  | undef (w : List Char)
  | compOnly (w : List Char)
deriving DecidableEq

/-!
## The processor
-/

/-- The `Processor` state.  `scan` is the scanner, reduced to the source
text not yet consumed (the line/column counters feed only the verbose
diagnostic text); `ip` is the instruction pointer, a cell position inside a
word body or null; `heap` is the allocation order of all words ever created;
`dict` is the lookup chain, most recent first; `compWord` is the word
currently being compiled (`comp_word`); `wExit`/`wPush` cache the indices of
the two significant builtin words; `out` is the text written to stdout and
`errs` the diagnostics written to stderr. -/
structure Processor where
  scan : List Char
  ip : Option (Nat × Nat)
  ds : List Value
  rs : List Value
  panic : Bool
  heap : List Word
  dict : List Nat
  compWord : Option Nat
  wExit : Nat
  wPush : Nat
  out : List Char
  errs : List ErrMsg
deriving DecidableEq

/-- Update the element at an index of a list (identity when out of range),
used to model writes through a pointer into a word body. -/
def listModify (f : Word → Word) : Nat → List Word → List Word
  | _, [] => []
  | 0, a :: as => f a :: as
  | n + 1, a :: as => a :: listModify f n as

/-- Dereference a word index (a non-null `Word *`). -/
def heapGet (p : Processor) (wid : Nat) : Option Word := p.heap.get? wid

/-- Apply an update to the body of the word at an index, modelling an
in-place write through the word's `colon` member. -/
def heapModifyColon (p : Processor) (wid : Nat) (f : List Value → List Value) : Processor :=
  { p with heap := listModify (fun w => { w with colon := f w.colon }) wid p.heap }

/-- The number of cells in the body of the word at an index (its
`colon.count`), read from the live heap; `0` for a dangling index. -/
def colonLen (p : Processor) (wid : Nat) : Nat :=
  match heapGet p wid with
  | some w => w.colon.length
  | none => 0

/-- The cell at a position of a word body (a dereference of a `Value *`). -/
def cellAt (p : Processor) (wid idx : Nat) : Option Value :=
  match heapGet p wid with
  | some w => w.colon.get? idx
  | none => none

/-- `word_new`: allocate a fresh word with the given name and flags; its
index is its position in the allocation order.  A word made without
`FLAG_code` starts with an empty body; the `code` member of such a word is
the unused side of the C union. -/
def word_new (p : Processor) (nm : List Char) (flags : Nat) : Nat × Processor :=
  let w : Word := { name := nm, flags := flags,
                    code := none, colon := [] }
  (p.heap.length, { p with heap := p.heap ++ [w] })

/-- `word_code_new`: allocate a fresh native word. -/
def word_code_new (p : Processor) (nm : List Char) (pr : Prim) : Nat × Processor :=
  let w : Word := { name := nm, flags := FLAG_code,
                    code := some pr, colon := [] }
  (p.heap.length, { p with heap := p.heap ++ [w] })

/-- `word_list_add`: prepend a word to the lookup chain. -/
def word_list_add (p : Processor) (wid : Nat) : Processor :=
  { p with dict := wid :: p.dict }

/-- `word_list_find`: scan the chain front to back (most recent first) and
return the first entry that is not hidden and whose name matches
case-insensitively; null when there is none.  A dangling chain entry cannot
occur and stops the scan. -/
def word_list_find (heap : List Word) : List Nat → List Char → Option Nat
  | [], _ => none
  | wid :: rest, nm =>
    match heap.get? wid with
    | none => none
    | some w =>
      if !check_flag w.flags FLAG_hidden && nameEq w.name nm then some wid
      else word_list_find heap rest nm

/-!
## Scanner
-/

/-- The whitespace class of C `isspace`. -/
def isSpaceC (c : Char) : Bool :=
  c = ' ' || c = '\t' || c = '\n' || c = '\x0b' || c = '\x0c' || c = '\r'

/-- `scan_word`: skip whitespace, then return the maximal run of
non-whitespace bytes together with the remaining source.  The C scanner
keeps an offset into the buffer and rebases it at every call; the pair
returned here is the same observable decomposition. -/
def scan_word (src : List Char) : List Char × List Char :=
  let s := src.dropWhile isSpaceC
  (s.takeWhile (fun c => !isSpaceC c), s.dropWhile (fun c => !isSpaceC c))

/-- `scan_end`: the scanner has no byte left after the last token. -/
def scan_end (p : Processor) : Bool := p.scan.isEmpty

/-!
## Errors and popping
-/

/-- `error`: print a diagnostic and set the sticky panic flag. -/
def error (p : Processor) (m : List Char) : Processor :=
  { p with panic := true, errs := p.errs ++ [ErrMsg.msg m] }

/-- `error_undef`: diagnostic for a token that is neither a word nor a
literal; sets the panic flag. -/
def error_undef (p : Processor) (w : List Char) : Processor :=
  { p with panic := true, errs := p.errs ++ [ErrMsg.undef w] }

/-- `error_comp_only`: diagnostic for a compile-only word used while
interpreting; sets the panic flag. -/
def error_comp_only (p : Processor) (w : List Char) : Processor :=
  { p with panic := true, errs := p.errs ++ [ErrMsg.compOnly w] }

/-- `proc_pop`: pop the data stack; on underflow the popped cell defaults to
integer `0` and, unless the processor is already panicking, a stack
underflow is reported. -/
def proc_pop (p : Processor) : Value × Processor :=
  match ds_pop p.ds with
  | some (v, ds') => (v, { p with ds := ds' })
  | none => (Value.num 0, if p.panic then p else error p ("stack underflow".data))

/-- `ds_push_xt` applied to the processor's data stack: push an execution
token, with no check for the null pointer. -/
def ds_push_xtP (p : Processor) (w : Option Nat) : Processor :=
  { p with ds := ds_push p.ds (Value.xt w) }

/-- `proc_comp_push`: append to a word's body an execution token for the
hidden `_push` word followed by the literal cell — exactly two cells. -/
def proc_comp_push (p : Processor) (wid : Nat) (val : Value) : Processor :=
  heapModifyColon p wid (fun b => ds_push (ds_push b (Value.xt (some p.wPush))) val)

/-!
## Native words (`w_*`)

Each function below is the body of one builtin, translated clause for
clause from the C function of the same name.
-/

/-- `w_define` (`:`): read a name, create a hidden word, make it the
compilation target and add it to the chain. -/
def w_define (p : Processor) : Processor :=
  let (nm, sc) := scan_word p.scan
  let p := { p with scan := sc }
  let (wid, p) := word_new p nm FLAG_hidden
  let p := { p with compWord := some wid }
  word_list_add p wid

/-- `w_end` (`;`): clear the target word's hidden flag and leave compile
mode.  The C code dereferences `comp_word` unconditionally; running this
with no open definition is undefined behavior there (the normal dispatch
path rules it out via the compile-only flag) and is modelled as a no-op. -/
def w_end (p : Processor) : Processor :=
  match p.compWord with
  | some wid =>
    { { p with heap := listModify (fun w => { w with flags := w.flags - w.flags.land FLAG_hidden }) wid p.heap }
      with compWord := none }
  | none => p

/-- `w_immediate` (`immediate`): set the immediate flag on the word being
compiled; with no open definition the C code has undefined behavior,
modelled as a no-op. -/
def w_immediate (p : Processor) : Processor :=
  match p.compWord with
  | some wid =>
    { p with heap := listModify (fun w => { w with flags := w.flags.lor FLAG_immediate }) wid p.heap }
  | none => p

/-- `w_quote` (`'`): read the next token, look it up with the ordinary
dictionary lookup, and push the resulting execution token — possibly the
null pointer — onto the data stack without invoking it (`ds_push_xt`
performs no null check). -/
def w_quote (p : Processor) : Processor :=
  let (nm, sc) := scan_word p.scan
  let p := { p with scan := sc }
  ds_push_xtP p (word_list_find p.heap p.dict nm)

/-- `w_compile` (`,`): pop a value (defaulting to `0` on underflow) and
append it raw to the body of the word being compiled; with no open
definition the C code has undefined behavior, modelled as a no-op. -/
def w_compile (p : Processor) : Processor :=
  let (v, p) := proc_pop p
  match p.compWord with
  | some wid => heapModifyColon p wid (fun b => b ++ [v])
  | none => p

/-- `w_exit` (`exit`): set the instruction pointer to the null sentinel,
stopping the enclosing body. -/
def w_exit (p : Processor) : Processor := { p with ip := none }

/-- `w_constant`: pop a value, read a name, and create a word whose body is
`[push, value]`.  The pop's panic state is not checked. -/
def w_constant (p : Processor) : Processor :=
  let (val, p) := proc_pop p
  let (nm, sc) := scan_word p.scan
  let p := { p with scan := sc }
  let (wid, p) := word_new p nm 0
  let p := proc_comp_push p wid val
  word_list_add p wid

/-- `w_variable`: read a name and create a word whose body is
`[push, A, exit, S]` with `S` a trailing zero cell and `A` the address of
`S`.  The C code captures `ds_top` of the body (a `Value *`) right after
the first two cells are pushed and writes the address of the final cell
into it after the last push; with the initial capacity of 8 no reallocation
intervenes, so the pointer is exactly the cell at index 1, which is how it
is rendered here. -/
def w_variable (p : Processor) : Processor :=
  let tmp := Value.num 0
  let (nm, sc) := scan_word p.scan
  let p := { p with scan := sc }
  let (wid, p) := word_new p nm 0
  let p := proc_comp_push p wid tmp
  let opIdx := colonLen p wid - 1
  let p := heapModifyColon p wid (fun b => ds_push b (Value.xt (some p.wExit)))
  let p := heapModifyColon p wid (fun b => ds_push b tmp)
  let sIdx := colonLen p wid - 1
  let p := heapModifyColon p wid (fun b => b.set opIdx (Value.addr wid sIdx))
  word_list_add p wid

/-- `w_fetch` (`@`): pop an address and push the cell it refers to.  If the
pop underflowed (or the processor was already panicking) nothing more
happens; dereferencing a cell that is not an address is an unchecked
reinterpretation in C, never exercised here, modelled as a no-op. -/
def w_fetch (p : Processor) : Processor :=
  let (a, p) := proc_pop p
  if p.panic then p
  else
    match a.getAddr with
    | some (wid, idx) =>
      match cellAt p wid idx with
      | some v => { p with ds := ds_push p.ds v }
      | none => p
    | none => p

/-- `w_store` (`!`): pop an address, then a value, and write the value
through the address.  Only the first pop is panic-checked; a second-pop
underflow stores the default `0` with the panic flag set. -/
def w_store (p : Processor) : Processor :=
  let (a, p) := proc_pop p
  if p.panic then p
  else
    let (val, p) := proc_pop p
    match a.getAddr with
    | some (wid, idx) => heapModifyColon p wid (fun b => b.set idx val)
    | none => p

/-- `w_dup`. -/
def w_dup (p : Processor) : Processor :=
  let (n, p) := proc_pop p
  let p := { p with ds := ds_push p.ds n }
  { p with ds := ds_push p.ds n }

/-- `w_swap`: pop the top two cells and push them back exchanged.  Pops
that underflow yield the default `0` cell and the pushes still happen. -/
def w_swap (p : Processor) : Processor :=
  let (n2, p) := proc_pop p
  let (n1, p) := proc_pop p
  let p := { p with ds := ds_push p.ds n2 }
  { p with ds := ds_push p.ds n1 }

/-- `w_over`: `(a b -- a b a)`. -/
def w_over (p : Processor) : Processor :=
  let (n2, p) := proc_pop p
  let (n1, p) := proc_pop p
  let p := { p with ds := ds_push p.ds n1 }
  let p := { p with ds := ds_push p.ds n2 }
  { p with ds := ds_push p.ds n1 }

/-- `w_rot`: `(a b c -- b c a)`. -/
def w_rot (p : Processor) : Processor :=
  let (n3, p) := proc_pop p
  let (n2, p) := proc_pop p
  let (n1, p) := proc_pop p
  let p := { p with ds := ds_push p.ds n2 }
  let p := { p with ds := ds_push p.ds n3 }
  { p with ds := ds_push p.ds n1 }

/-- `w_push` (the hidden `_push`): advance the instruction pointer one cell,
read that cell as plain data and push it.  With a null instruction pointer,
or past the end of the body, the C code reads unchecked memory (undefined
behavior, unreachable for bodies the program builds); those cases are
modelled as a no-op and a default cell. -/
def w_push (p : Processor) : Processor :=
  match p.ip with
  | some (wid, idx) =>
    let n := (cellAt p wid (idx + 1)).getD (Value.num 0)
    { p with ip := some (wid, idx + 1), ds := ds_push p.ds n }
  | none => p

/-- `w_drop`. -/
def w_drop (p : Processor) : Processor := (proc_pop p).2

/-!
## Output words

`natText`/`intText` render the `%PRId32` decimal format and `hexText` the
`%PRIX32` uppercase-hexadecimal format of `printf`.
-/

/-- Decimal digits of a natural number, most significant first; the first
argument is fuel, always sufficient at `n + 1`. -/
def natDigits : Nat → Nat → List Char
  | 0, _ => []
  | fuel + 1, n =>
    if n < 10 then [Char.ofNat (48 + n)]
    else natDigits fuel (n / 10) ++ [Char.ofNat (48 + n % 10)]

/-- Decimal text of a natural number. -/
def natText (n : Nat) : List Char := natDigits (n + 1) n

/-- Decimal text of an integer (`%PRId32`). -/
def intText (n : Int) : List Char :=
  if n < 0 then '-' :: natText (-n).toNat else natText n.toNat

/-- One uppercase hexadecimal digit. -/
def hexDigit (n : Nat) : Char :=
  if n < 10 then Char.ofNat (48 + n) else Char.ofNat (55 + n)

/-- Uppercase hexadecimal digits of a natural number (fuelled as above). -/
def hexDigits : Nat → Nat → List Char
  | 0, _ => []
  | fuel + 1, n =>
    if n < 16 then [hexDigit n]
    else hexDigits fuel (n / 16) ++ [hexDigit (n % 16)]

/-- Uppercase hexadecimal text of a natural number (`%PRIX32`). -/
def hexText (n : Nat) : List Char := hexDigits (n + 1) n

/-- `w_print` (`.`): pop and print a number in decimal.  After a pop that
underflowed — or with the panic flag already set — nothing is printed. -/
def w_print (p : Processor) : Processor :=
  let (val, p) := proc_pop p
  if p.panic then p
  else { p with out := p.out ++ intText val.getNum }

/-- `w_print_u32` (`.u`): pop and print as unsigned uppercase hex. -/
def w_print_u32 (p : Processor) : Processor :=
  let (val, p) := proc_pop p
  if p.panic then p
  else { p with out := p.out ++ hexText (toU32 val.getNum) }

/-- `w_print_ch` (`.c`): pop and print one character. -/
def w_print_ch (p : Processor) : Processor :=
  let (val, p) := proc_pop p
  if p.panic then p
  else { p with out := p.out ++ [val.getCh] }

/-- `w_endline` (`cr`). -/
def w_endline (p : Processor) : Processor := { p with out := p.out ++ ['\n'] }

/-- `w_dump_ds` (`.s`): print every cell bottom to top, space-separated,
with a final newline when the stack is not empty. -/
def w_dump_ds (p : Processor) : Processor :=
  match p.ds with
  | [] => p
  | vs => { p with out := p.out ++ (List.intercalate [' '] (vs.map (fun v => intText v.getNum))) ++ ['\n'] }

/-!
## Arithmetic, comparison and bitwise words

Each pops two cells (second operand first) and pushes one `int32_t`
result; `ds_push_num` applies the 32-bit wrap of the C arithmetic.
-/

/-- `ds_push_num` on the processor's data stack, wrapping to `int32_t`. -/
def push_num (p : Processor) (n : Int) : Processor :=
  { p with ds := ds_push p.ds (Value.num (wrap32 n)) }

/-- The `flag` macro: `-1` for true, `0` for false. -/
def boolFlag (b : Bool) : Int := if b then -1 else 0

/-- `w_add` (`+`). -/
def w_add (p : Processor) : Processor :=
  let (n2, p) := proc_pop p
  let (n1, p) := proc_pop p
  push_num p (n1.getNum + n2.getNum)

/-- `w_sub` (`-`): first-pushed minus second-pushed. -/
def w_sub (p : Processor) : Processor :=
  let (n2, p) := proc_pop p
  let (n1, p) := proc_pop p
  push_num p (n1.getNum - n2.getNum)

/-- `w_mul` (`*`). -/
def w_mul (p : Processor) : Processor :=
  let (n2, p) := proc_pop p
  let (n1, p) := proc_pop p
  push_num p (n1.getNum * n2.getNum)

/-- `w_div` (`/`): the C body is identical to `w_mul` — it multiplies. -/
def w_div (p : Processor) : Processor :=
  let (n2, p) := proc_pop p
  let (n1, p) := proc_pop p
  push_num p (n1.getNum * n2.getNum)

/-- `w_less` (`<`). -/
def w_less (p : Processor) : Processor :=
  let (n2, p) := proc_pop p
  let (n1, p) := proc_pop p
  push_num p (boolFlag (n1.getNum < n2.getNum))

/-- `w_less_eq` (`<=`). -/
def w_less_eq (p : Processor) : Processor :=
  let (n2, p) := proc_pop p
  let (n1, p) := proc_pop p
  push_num p (boolFlag (n1.getNum ≤ n2.getNum))

/-- `w_greater` (`>`). -/
def w_greater (p : Processor) : Processor :=
  let (n2, p) := proc_pop p
  let (n1, p) := proc_pop p
  push_num p (boolFlag (n1.getNum > n2.getNum))

/-- `w_greater_eq` (`>=`). -/
def w_greater_eq (p : Processor) : Processor :=
  let (n2, p) := proc_pop p
  let (n1, p) := proc_pop p
  push_num p (boolFlag (n1.getNum ≥ n2.getNum))

/-- `w_equals` (`=`). -/
def w_equals (p : Processor) : Processor :=
  let (n2, p) := proc_pop p
  let (n1, p) := proc_pop p
  push_num p (boolFlag (n1.getNum = n2.getNum))

/-- `w_not_eq` (`<>`). -/
def w_not_eq (p : Processor) : Processor :=
  let (n2, p) := proc_pop p
  let (n1, p) := proc_pop p
  push_num p (boolFlag (n1.getNum ≠ n2.getNum))

/-- `w_and` (`and`): bitwise AND of the two 32-bit patterns. -/
def w_and (p : Processor) : Processor :=
  let (f2, p) := proc_pop p
  let (f1, p) := proc_pop p
  push_num p (ofU32 ((toU32 f1.getNum).land (toU32 f2.getNum)))

/-- `w_or` (`or`). -/
def w_or (p : Processor) : Processor :=
  let (f2, p) := proc_pop p
  let (f1, p) := proc_pop p
  push_num p (ofU32 ((toU32 f1.getNum).lor (toU32 f2.getNum)))

/-- `w_xor` (`xor`). -/
def w_xor (p : Processor) : Processor :=
  let (f2, p) := proc_pop p
  let (f1, p) := proc_pop p
  push_num p (ofU32 ((toU32 f1.getNum).xor (toU32 f2.getNum)))

/-- Dispatch a native word body. -/
def execPrim : Prim → Processor → Processor
  | .pExit => w_exit
  | .pPush => w_push
  | .pDefine => w_define
  | .pQuote => w_quote
  | .pEnd => w_end
  | .pCompile => w_compile
  | .pImmediate => w_immediate
  | .pConstant => w_constant
  | .pVariable => w_variable
  | .pFetch => w_fetch
  | .pStore => w_store
  | .pDup => w_dup
  | .pSwap => w_swap
  | .pDrop => w_drop
  | .pOver => w_over
  | .pRot => w_rot
  | .pPrint => w_print
  | .pPrintU => w_print_u32
  | .pPrintCh => w_print_ch
  | .pEndline => w_endline
  | .pDumpDs => w_dump_ds
  | .pAdd => w_add
  | .pSub => w_sub
  | .pMul => w_mul
  | .pDiv => w_div
  | .pLess => w_less
  | .pLessEq => w_less_eq
  | .pGreater => w_greater
  | .pGreaterEq => w_greater_eq
  | .pEquals => w_equals
  | .pNotEq => w_not_eq
  | .pAnd => w_and
  | .pOr => w_or
  | .pXor => w_xor

/-!
## The execution engine

`execute_word` in C recurses through the host call stack with no bound; the
model threads an explicit fuel, consumed one unit per call and per loop
iteration, so any finite execution is reproduced exactly by a large enough
fuel.  The instruction loop re-reads the body from the live heap on every
iteration, as the C loop reads through its pointers.  The C loop condition
is the pointer range test `ip >= contents && ip < contents + count`; with
pointers rendered as (word, cell) pairs it becomes "the instruction pointer
lies inside this word's body".  Executing a null execution token, or a cell
whose `xt` member was never written, dereferences garbage in C (undefined
behavior, unreachable for dictionaries the program builds); the model makes
those cases a no-op.
-/

/-- The instruction loop of `execute_word`, abstracted over the recursive
call (`exec1` executes one word): while the instruction pointer lies inside
the executing body, execute the cell it points at as a word, stop if that
set the pointer to the null sentinel, and otherwise advance the pointer one
cell. -/
def exec_loop (exec1 : Processor → Option Nat → Processor) : Nat → Processor → Nat → Processor
  | 0, p, _ => p
  | fuel + 1, p, wid =>
    match p.ip with
    | none => p
    | some (cw, idx) =>
      if cw = wid ∧ idx < colonLen p wid then
        let opx := ((cellAt p wid idx).getD (Value.num 0)).getXt
        let p1 := exec1 p opx
        match p1.ip with
        | none => p1
        | some (cw2, i2) => exec_loop exec1 fuel { p1 with ip := some (cw2, i2 + 1) } wid
      else p

/-- `execute_word`: run a native word directly, otherwise run its (non-empty)
body with a fresh instruction pointer, restoring the caller's instruction
pointer and clearing the auxiliary stack afterwards. -/
def execute_word : Nat → Processor → Option Nat → Processor
  | 0, p, _ => p
  | _ + 1, p, none => p
  | fuel + 1, p, some wid =>
    match heapGet p wid with
    | none => p
    | some w =>
      if check_flag w.flags FLAG_code then
        match w.code with
        | some pr => execPrim pr p
        | none => p
      else if w.colon.length = 0 then p
      else
        let old_ip := p.ip
        let p1 := exec_loop (fun q o => execute_word fuel q o) fuel { p with ip := some (wid, 0) } wid
        { p1 with ip := old_ip, rs := [] }

/-- `proc_next`: read one token and dispatch it.  An empty token (trailing
whitespace) does nothing.  An unknown token is classified as a literal and
pushed — onto the open definition (behind a `_push` marker) in compile
mode, onto the data stack otherwise — or reported as undefined.  A known
word is executed immediately when interpreting (unless compile-only, an
error) and when compiling if immediate; a non-immediate word met in compile
mode is appended to the open definition as a bare execution token. -/
def proc_next (fuel : Nat) (p : Processor) : Processor :=
  let (nm, sc) := scan_word p.scan
  let p := { p with scan := sc }
  if nm.length = 0 then p
  else
    match word_list_find p.heap p.dict nm with
    | none =>
      let (operand, is_val) := value_read nm
      if !is_val then error_undef p nm
      else
        match p.compWord with
        | some cw => proc_comp_push p cw operand
        | none => { p with ds := ds_push p.ds operand }
    | some wid =>
      match heapGet p wid with
      | none => p
      | some w =>
        match p.compWord with
        | some cw =>
          if check_flag w.flags FLAG_immediate then execute_word fuel p (some wid)
          else heapModifyColon p cw (fun b => ds_push b (Value.xt (some wid)))
        | none =>
          if check_flag w.flags FLAG_comp_only then error_comp_only p nm
          else execute_word fuel p (some wid)

/-- The token loop of `run_source`: before each token, stop at the end of
the source; stop as soon as the panic flag is observed. -/
def run_loop : Nat → Processor → Processor
  | 0, p => p
  | fuel + 1, p =>
    if scan_end p then p
    else if p.panic then p
    else run_loop fuel (proc_next fuel p)

/-- `run_source`: clear the panic flag, load the chunk into the scanner and
run the token loop. -/
def run_source (p : Processor) (source : List Char) (fuel : Nat) : Processor :=
  run_loop fuel { p with panic := false, scan := source }

/-!
## The builtin dictionary
-/

/-- `code_word`: allocate a native word, or its extra flags into it and add
it to the chain. -/
def code_word (p : Processor) (nm : List Char) (pr : Prim) (flags : Nat) : Nat × Processor :=
  let (wid, p) := word_code_new p nm pr
  let p := { p with heap := listModify (fun w => { w with flags := w.flags.lor flags }) wid p.heap }
  (wid, word_list_add p wid)

/-- `load_builtin`: install the fixed word catalog, in source order, and
remember the indices of `exit` and `_push`. -/
def load_builtin (p : Processor) : Processor :=
  let (e, p) := code_word p "exit".data .pExit 0
  let p := { p with wExit := e }
  let (pu, p) := code_word p "_push".data .pPush FLAG_hidden
  let p := { p with wPush := pu }
  let (_, p) := code_word p ":".data .pDefine 0
  let (_, p) := code_word p "'".data .pQuote FLAG_immediate
  let (_, p) := code_word p ";".data .pEnd (FLAG_immediate.lor FLAG_comp_only)
  let (_, p) := code_word p ",".data .pCompile (FLAG_immediate.lor FLAG_comp_only)
  let (_, p) := code_word p "immediate".data .pImmediate (FLAG_immediate.lor FLAG_comp_only)
  let (_, p) := code_word p "constant".data .pConstant FLAG_immediate
  let (_, p) := code_word p "variable".data .pVariable 0
  let (_, p) := code_word p "@".data .pFetch 0
  let (_, p) := code_word p "!".data .pStore 0
  let (_, p) := code_word p "dup".data .pDup 0
  let (_, p) := code_word p "swap".data .pSwap 0
  let (_, p) := code_word p "drop".data .pDrop 0
  let (_, p) := code_word p "over".data .pOver 0
  let (_, p) := code_word p "rot".data .pRot 0
  let (_, p) := code_word p ".".data .pPrint 0
  let (_, p) := code_word p ".u".data .pPrintU 0
  let (_, p) := code_word p ".c".data .pPrintCh 0
  let (_, p) := code_word p "cr".data .pEndline 0
  let (_, p) := code_word p ".s".data .pDumpDs 0
  let (_, p) := code_word p "+".data .pAdd 0
  let (_, p) := code_word p "-".data .pSub 0
  let (_, p) := code_word p "*".data .pMul 0
  let (_, p) := code_word p "/".data .pDiv 0
  let (_, p) := code_word p "<".data .pLess 0
  let (_, p) := code_word p "<=".data .pLessEq 0
  let (_, p) := code_word p ">".data .pGreater 0
  let (_, p) := code_word p ">=".data .pGreaterEq 0
  let (_, p) := code_word p "=".data .pEquals 0
  let (_, p) := code_word p "<>".data .pNotEq 0
  let (_, p) := code_word p "and".data .pAnd 0
  let (_, p) := code_word p "or".data .pOr 0
  let (_, p) := code_word p "xor".data .pXor 0
  p

/-- `proc_init`: a fresh processor holding only the builtin dictionary. -/
def proc_init : Processor :=
  load_builtin
    { scan := [], ip := none, ds := [], rs := [], panic := false,
      heap := [], dict := [], compWord := none, wExit := 0, wPush := 0,
      out := [], errs := [] }

/-- Run one source chunk on a fresh processor, with fuel ample for every
program considered in this development. -/
def runP (src : String) : Processor := run_source proc_init src.data 100

/-!
## Helper lemmas
-/

/-- Popping a stack written as prefix-plus-top yields the top and the
prefix. -/
theorem ds_pop_concat (xs : List Value) (v : Value) : ds_pop (xs ++ [v]) = some (v, xs) := by
  induction xs with
  | nil => rfl
  | cons x xs ih => simp [ds_pop, ih]

/-- `proc_pop` on a processor whose stack ends in `v` pops `v` and reports
nothing. -/
theorem proc_pop_concat (p : Processor) (xs : List Value) (v : Value) (h : p.ds = xs ++ [v]) :
    proc_pop p = (v, { p with ds := xs }) := by
  simp [proc_pop, h, ds_pop_concat]

/-- `listModify` at an index rewrites exactly that entry. -/
theorem listModify_get_eq (f : Word → Word) (n : Nat) (l : List Word) :
    (listModify f n l).get? n = (l.get? n).map f := by
  induction l generalizing n with
  | nil => simp [listModify]
  | cons a as ih =>
    cases n with
    | zero => simp [listModify]
    | succ m => simpa [listModify] using ih m

/-- `listModify` leaves every other entry alone. -/
theorem listModify_get_ne (f : Word → Word) (n m : Nat) (l : List Word) (h : m ≠ n) :
    (listModify f n l).get? m = l.get? m := by
  induction l generalizing n m with
  | nil => simp [listModify]
  | cons a as ih =>
    cases n with
    | zero => cases m with
      | zero => exact absurd rfl h
      | succ k => simp [listModify]
    | succ n' => cases m with
      | zero => simp [listModify]
      | succ k => simpa [listModify] using ih n' k (fun hk => h (by simp [hk]))

/-- An underflowing `proc_pop` (or one on an already-panicking processor)
leaves the panic flag set once it is set. -/
theorem proc_pop_panic (p : Processor) (h : p.panic = true) : (proc_pop p).2.panic = true := by
  unfold proc_pop
  match hd : ds_pop p.ds with
  | some (v, ds') => simp [hd, h]
  | none => simp [hd, h]

/-- `proc_pop` rewritten to a named result pair. -/
theorem proc_pop_panic' {p q : Processor} {v : Value} (h : p.panic = true)
    (hp : proc_pop p = (v, q)) : q.panic = true := by
  have := proc_pop_panic p h
  rw [hp] at this
  exact this

/-- No native word ever clears the panic flag: every `w_*` body either
leaves it alone or sets it (the error paths).  This is the stickiness half
of the panic discipline. -/
theorem execPrim_panic (pr : Prim) (p : Processor) (h : p.panic = true) :
    (execPrim pr p).panic = true := by
  cases pr with
  | pExit => exact h
  | pPush =>
    cases hip : p.ip with
    | none => simp [execPrim, w_push, hip, h]
    | some pos =>
      obtain ⟨wid, idx⟩ := pos
      simp [execPrim, w_push, hip, h]
  | pDefine => exact h
  | pQuote => exact h
  | pEnd =>
    cases hcw : p.compWord <;> simp [execPrim, w_end, hcw, h]
  | pCompile =>
    rcases hp : proc_pop p with ⟨v, q⟩
    have hq := proc_pop_panic' h hp
    cases hcw : q.compWord <;> simp [execPrim, w_compile, hp, hcw, heapModifyColon, hq]
  | pImmediate =>
    cases hcw : p.compWord <;> simp [execPrim, w_immediate, hcw, h]
  | pConstant =>
    rcases hp : proc_pop p with ⟨v, q⟩
    have hq := proc_pop_panic' h hp
    simp [execPrim, w_constant, hp, word_new, proc_comp_push, heapModifyColon,
      word_list_add, ds_push, hq]
  | pVariable => exact h
  | pFetch =>
    rcases hp : proc_pop p with ⟨a, q⟩
    have hq := proc_pop_panic' h hp
    simp only [execPrim, w_fetch, hp, hq, if_true]
  | pStore =>
    rcases hp : proc_pop p with ⟨a, q⟩
    have hq := proc_pop_panic' h hp
    simp only [execPrim, w_store, hp, hq, if_true]
  | pDup => exact proc_pop_panic _ h
  | pSwap => exact proc_pop_panic _ (proc_pop_panic _ h)
  | pDrop => exact proc_pop_panic _ h
  | pOver => exact proc_pop_panic _ (proc_pop_panic _ h)
  | pRot => exact proc_pop_panic _ (proc_pop_panic _ (proc_pop_panic _ h))
  | pPrint =>
    rcases hp : proc_pop p with ⟨v, q⟩
    have hq := proc_pop_panic' h hp
    simp only [execPrim, w_print, hp, hq, if_true]
  | pPrintU =>
    rcases hp : proc_pop p with ⟨v, q⟩
    have hq := proc_pop_panic' h hp
    simp only [execPrim, w_print_u32, hp, hq, if_true]
  | pPrintCh =>
    rcases hp : proc_pop p with ⟨v, q⟩
    have hq := proc_pop_panic' h hp
    simp only [execPrim, w_print_ch, hp, hq, if_true]
  | pEndline => exact h
  | pDumpDs =>
    cases hds : p.ds <;> simp [execPrim, w_dump_ds, hds, h]
  | pAdd => exact proc_pop_panic _ (proc_pop_panic _ h)
  | pSub => exact proc_pop_panic _ (proc_pop_panic _ h)
  | pMul => exact proc_pop_panic _ (proc_pop_panic _ h)
  | pDiv => exact proc_pop_panic _ (proc_pop_panic _ h)
  | pLess => exact proc_pop_panic _ (proc_pop_panic _ h)
  | pLessEq => exact proc_pop_panic _ (proc_pop_panic _ h)
  | pGreater => exact proc_pop_panic _ (proc_pop_panic _ h)
  | pGreaterEq => exact proc_pop_panic _ (proc_pop_panic _ h)
  | pEquals => exact proc_pop_panic _ (proc_pop_panic _ h)
  | pNotEq => exact proc_pop_panic _ (proc_pop_panic _ h)
  | pAnd => exact proc_pop_panic _ (proc_pop_panic _ h)
  | pOr => exact proc_pop_panic _ (proc_pop_panic _ h)
  | pXor => exact proc_pop_panic _ (proc_pop_panic _ h)

/-- The instruction loop never clears the panic flag, provided the
single-word executor it drives never does. -/
theorem exec_loop_panic (exec1 : Processor → Option Nat → Processor)
    (hx : ∀ q o, q.panic = true → (exec1 q o).panic = true) :
    ∀ (fuel : Nat) (p : Processor) (wid : Nat),
      p.panic = true → (exec_loop exec1 fuel p wid).panic = true := by
  intro fuel
  induction fuel with
  | zero => intro p wid h; exact h
  | succ fuel ih =>
    intro p wid h
    rw [exec_loop]
    split
    · exact h
    · split
      · dsimp only
        split
        · exact hx p _ h
        · exact ih _ wid (hx p _ h)
      · exact h

/-- `execute_word` never clears the panic flag. -/
theorem execute_word_panic :
    ∀ (fuel : Nat) (p : Processor) (xt : Option Nat),
      p.panic = true → (execute_word fuel p xt).panic = true := by
  intro fuel
  induction fuel with
  | zero => intro p xt h; exact h
  | succ fuel ih =>
    intro p xt h
    cases xt with
    | none => exact h
    | some wid =>
      rw [execute_word]
      split
      · exact h
      · rename_i w hw
        split
        · split
          · exact execPrim_panic _ p h
          · exact h
        · split
          · exact h
          · exact exec_loop_panic (fun q o => execute_word fuel q o)
              (fun q o hq => ih q o hq) fuel { p with ip := some (wid, 0) } wid h

/-- A left-over token dispatch (`proc_next`) never clears the panic flag:
literal pushes and compilation keep it, the error paths set it, and word
execution preserves it by `execute_word_panic`. -/
theorem proc_next_panic (fuel : Nat) (p : Processor) (h : p.panic = true) :
    (proc_next fuel p).panic = true := by
  rw [proc_next]
  dsimp only
  repeat' (first | split | dsimp only)
  all_goals first
    | rfl
    | exact h
    | exact execute_word_panic fuel _ _ h

/-- Appending two cells with `proc_comp_push` rewrites exactly the target
word's body. -/
theorem heapGet_comp_push (p : Processor) (wid : Nat) (w : Word) (v : Value)
    (hw : heapGet p wid = some w) :
    heapGet (proc_comp_push p wid v) wid
      = some { w with colon := w.colon ++ [Value.xt (some p.wPush), v] } := by
  simp only [proc_comp_push, heapModifyColon, heapGet, listModify_get_eq, ds_push]
  simp only [heapGet] at hw
  rw [hw]
  simp

/-- One iteration of the instruction loop at a `_push` marker: the marker's
word runs, pushing the cell right after it onto the data stack, and the
loop's own advance then lands the cursor two cells further — the literal
cell itself is never dispatched as an instruction. -/
theorem exec_loop_push_step (f g : Nat) (p : Processor) (wid idx : Nat) (v : Value) (pw : Word)
    (hip : p.ip = some (wid, idx))
    (hcell : cellAt p wid idx = some (Value.xt (some p.wPush)))
    (hcell2 : cellAt p wid (idx + 1) = some v)
    (hlt : idx + 1 < colonLen p wid)
    (hpw : heapGet p p.wPush = some pw)
    (hflag : check_flag pw.flags FLAG_code = true)
    (hcode : pw.code = some Prim.pPush) :
    exec_loop (fun q o => execute_word (f + 1) q o) (g + 1) p wid
      = exec_loop (fun q o => execute_word (f + 1) q o) g
          { p with ip := some (wid, idx + 2), ds := p.ds ++ [v] } wid := by
  rw [exec_loop]
  simp only [hip]
  rw [if_pos (And.intro trivial (Nat.lt_of_succ_lt hlt))]
  simp only [hcell, Option.getD_some, Value.getXt]
  rw [execute_word]
  simp only [hpw, hflag, if_true, hcode, execPrim, w_push, hip, hcell2, Option.getD_some]
  simp [ds_push]

/-- One iteration of the instruction loop at an `exit` token: the cursor is
set to the null sentinel and the loop stops. -/
theorem exec_loop_exit_step (f g : Nat) (p : Processor) (wid idx : Nat) (ew : Word)
    (hip : p.ip = some (wid, idx))
    (hlt : idx < colonLen p wid)
    (hcell : cellAt p wid idx = some (Value.xt (some p.wExit)))
    (hew : heapGet p p.wExit = some ew)
    (hef : check_flag ew.flags FLAG_code = true)
    (hec : ew.code = some Prim.pExit) :
    exec_loop (fun q o => execute_word (f + 1) q o) (g + 1) p wid = { p with ip := none } := by
  rw [exec_loop]
  simp only [hip]
  rw [if_pos (And.intro trivial hlt)]
  simp only [hcell, Option.getD_some, Value.getXt]
  rw [execute_word]
  simp only [hew, hef, if_true, hec, execPrim, w_exit]

/-- A successful dictionary lookup always lands on a non-hidden,
name-matching entry: `word_list_find` has no path that returns a hidden
word. -/
theorem word_list_find_not_hidden (heap : List Word) :
    ∀ (chain : List Nat) (nm : List Char) (wid : Nat),
      word_list_find heap chain nm = some wid →
      ∃ w, heap.get? wid = some w ∧ check_flag w.flags FLAG_hidden = false
        ∧ nameEq w.name nm = true := by
  intro chain
  induction chain with
  | nil => intro nm wid h; simp [word_list_find] at h
  | cons i rest ih =>
    intro nm wid h
    simp only [word_list_find] at h
    split at h
    · exact absurd h (by simp)
    · rename_i w hw
      split at h
      · rename_i hc
        obtain rfl : i = wid := Option.some.inj h
        rw [Bool.and_eq_true, Bool.not_eq_true'] at hc
        exact ⟨w, hw, hc.1, hc.2⟩
      · exact ih nm wid h

/-- Lookup scans the chain front to back: when every earlier chain entry is
present but hidden or name-mismatching, the first visible matching entry is
the one returned — the newest non-hidden binding wins. -/
theorem word_list_find_first (heap : List Word) (nm : List Char) :
    ∀ (pre : List Nat) (wid : Nat) (post : List Nat) (w : Word),
      (∀ i ∈ pre, ∃ wi, heap.get? i = some wi ∧
        (check_flag wi.flags FLAG_hidden = true ∨ nameEq wi.name nm = false)) →
      heap.get? wid = some w →
      check_flag w.flags FLAG_hidden = false →
      nameEq w.name nm = true →
      word_list_find heap (pre ++ wid :: post) nm = some wid := by
  intro pre
  induction pre with
  | nil =>
    intro wid post w _ hw hh hn
    simp only [List.nil_append, word_list_find, hw]
    simp [hh, hn]
  | cons i rest ih =>
    intro wid post w hpre hw hh hn
    obtain ⟨wi, hwi, hskip⟩ := hpre i (by simp)
    have hcond : (!check_flag wi.flags FLAG_hidden && nameEq wi.name nm) = false := by
      rcases hskip with h1 | h1 <;> simp [h1]
    simp only [List.cons_append, word_list_find, hwi, hcond, Bool.false_eq_true, if_false]
    exact ih wid post w (fun j hj => hpre j (by simp [hj])) hw hh hn

/-!
## The claims
-/

/-- Claim C1: the arithmetic primitives pop two integer cells with
left-to-right operand order (`-` computes first-pushed minus second-pushed,
so `5 3 - .` prints `2`), and `/` is defined identically to `*`: for every
two integers `a` and `b` on the data stack, `/` pops `b` then `a` and pushes
`a * b` (as an `int32_t`), so `5 3 / .` prints `15`, not `1`. -/
theorem claim_C1_div_is_mul :
    (∀ p : Processor, w_div p = w_mul p) ∧
    (∀ (p : Processor) (a b : Int),
      w_sub { p with ds := p.ds ++ [Value.num a, Value.num b] }
        = { p with ds := p.ds ++ [Value.num (wrap32 (a - b))] }) ∧
    (∀ (p : Processor) (a b : Int),
      w_div { p with ds := p.ds ++ [Value.num a, Value.num b] }
        = { p with ds := p.ds ++ [Value.num (wrap32 (a * b))] }) ∧
    (runP "5 3 - .").out = "2".data ∧
    (runP "5 3 / .").out = "15".data ∧ (runP "5 3 / .").panic = false := by
  refine ⟨fun _ => rfl, ?_, ?_, by decide, by decide, by decide⟩
  · intro p a b
    have h1 : proc_pop { p with ds := p.ds ++ [Value.num a, Value.num b] }
        = (Value.num b, { p with ds := p.ds ++ [Value.num a] }) :=
      proc_pop_concat _ _ _ (by simp)
    have h2 : proc_pop { p with ds := p.ds ++ [Value.num a] }
        = (Value.num a, { p with ds := p.ds }) := proc_pop_concat _ _ _ rfl
    simp [w_sub, h1, h2, push_num, ds_push, Value.getNum]
  · intro p a b
    have h1 : proc_pop { p with ds := p.ds ++ [Value.num a, Value.num b] }
        = (Value.num b, { p with ds := p.ds ++ [Value.num a] }) :=
      proc_pop_concat _ _ _ (by simp)
    have h2 : proc_pop { p with ds := p.ds ++ [Value.num a] }
        = (Value.num a, { p with ds := p.ds }) := proc_pop_concat _ _ _ rfl
    simp [w_div, h1, h2, push_num, ds_push, Value.getNum]

/-- Claim C6: the stack-shuffle laws hold exactly: with top cells `a b`
(`b` topmost) `over` leaves `a b a`; with top cells `a b c`, `rot` leaves
`b c a`; `swap` on a one-cell stack reports a stack underflow and sets the
panic flag. -/
theorem claim_C6_shuffle_laws :
    (∀ (p : Processor) (a b : Value),
      w_over { p with ds := p.ds ++ [a, b] } = { p with ds := p.ds ++ [a, b, a] }) ∧
    (∀ (p : Processor) (a b c : Value),
      w_rot { p with ds := p.ds ++ [a, b, c] } = { p with ds := p.ds ++ [b, c, a] }) ∧
    (∀ (p : Processor) (a : Value),
      (w_swap { p with ds := [a], panic := false }).panic = true ∧
      (w_swap { p with ds := [a], panic := false }).errs
        = p.errs ++ [ErrMsg.msg ("stack underflow".data)]) := by
  refine ⟨?_, ?_, ?_⟩
  · intro p a b
    have h1 : proc_pop { p with ds := p.ds ++ [a, b] }
        = (b, { p with ds := p.ds ++ [a] }) := proc_pop_concat _ _ _ (by simp)
    have h2 : proc_pop { p with ds := p.ds ++ [a] }
        = (a, { p with ds := p.ds }) := proc_pop_concat _ _ _ rfl
    simp [w_over, h1, h2, ds_push]
  · intro p a b c
    have h1 : proc_pop { p with ds := p.ds ++ [a, b, c] }
        = (c, { p with ds := p.ds ++ [a, b] }) := proc_pop_concat _ _ _ (by simp)
    have h2 : proc_pop { p with ds := p.ds ++ [a, b] }
        = (b, { p with ds := p.ds ++ [a] }) := proc_pop_concat _ _ _ (by simp)
    have h3 : proc_pop { p with ds := p.ds ++ [a] }
        = (a, { p with ds := p.ds }) := proc_pop_concat _ _ _ rfl
    simp [w_rot, h1, h2, h3, ds_push]
  · intro p a
    constructor <;> simp [w_swap, proc_pop, ds_pop, error, ds_push]

/-- Claim C10: stack words that underflow are not atomic: a pop from an
empty data stack reports the underflow but yields a default integer-`0`
cell, and the word's later pushes still happen — `swap` on a stack holding
exactly `a` sets the panic flag and leaves the two cells `a` below
integer `0`, not the unchanged stack. -/
theorem claim_C10_underflow_not_atomic :
    (∀ p : Processor,
      proc_pop { p with ds := [], panic := false }
        = (Value.num 0,
          { p with ds := [], panic := true,
                   errs := p.errs ++ [ErrMsg.msg ("stack underflow".data)] })) ∧
    (∀ (p : Processor) (a : Value),
      w_swap { p with ds := [a], panic := false }
        =
        { p with ds := [a, Value.num 0], panic := true,
                 errs := p.errs ++ [ErrMsg.msg ("stack underflow".data)] }) := by
  refine ⟨?_, ?_⟩
  · intro p
    simp [proc_pop, ds_pop, error]
  · intro p a
    simp [w_swap, proc_pop, ds_pop, error, ds_push]

/-- Claim C2, counterexample: `'` does NOT bypass the hidden check.  In
`: f ' f ;` the word `f` being compiled is allocation index 34 and is hidden
while `' f` runs, so the quote's lookup misses it and pushes the null
execution token — not the execution token of `f` itself as the claim
states. -/
theorem claim_C2_counterexample :
    heapGet (runP ": f ' f ;") 34
      = some { name := "f".data, flags := 0, code := none, colon := [] } ∧
    (runP ": f ' f ;").ds = [Value.xt none] ∧
    (runP ": f ' f ;").ds ≠ [Value.xt (some 34)] := by decide

/-- Claim C2, amended: `'` reads the following token, looks it up with the
ordinary dictionary lookup, and pushes the resulting execution reference
without invoking it; but the lookup does not bypass the hidden check — a
lookup can only ever return a non-hidden entry, so inside a definition
`' <its-name>` pushes the most recent non-hidden binding of the name (the
null reference when there is none), never the word being compiled:
`: f ' f ;` leaves the null token, and `: f 1 ; : f ' f ;` leaves the token
of the first `f` (index 34), not of the second (index 35). -/
theorem claim_C2_quote_ordinary_lookup :
    (∀ p : Processor,
      w_quote p = ds_push_xtP { p with scan := (scan_word p.scan).2 }
        (word_list_find p.heap p.dict (scan_word p.scan).1)) ∧
    (∀ (heap : List Word) (chain : List Nat) (nm : List Char) (wid : Nat),
      word_list_find heap chain nm = some wid →
      ∃ w, heap.get? wid = some w ∧ check_flag w.flags FLAG_hidden = false
        ∧ nameEq w.name nm = true) ∧
    (runP ": f ' f ;").ds = [Value.xt none] ∧
    ((runP ": f 1 ; : f ' f ;").ds = [Value.xt (some 34)] ∧
      heapGet (runP ": f 1 ; : f ' f ;") 35
        = some { name := "f".data, flags := 0, code := none, colon := [] }) := by
  refine ⟨fun p => rfl, word_list_find_not_hidden, by decide, by decide, by decide⟩

/-- Claim C2, witness for the amended theorem's lookup conjunct: the lookup
of `swap` in the builtin dictionary returns index 12, a visible matching
entry. -/
theorem claim_C2_witness :
    ∃ w, proc_init.heap.get? 12 = some w ∧ check_flag w.flags FLAG_hidden = false
      ∧ nameEq w.name ("swap".data) = true :=
  claim_C2_quote_ordinary_lookup.2.1 proc_init.heap proc_init.dict ("swap".data) 12 (by decide)

/-- Claim C8: executing the compile-only word `;` while interpreting
reports a compile-only error and sets the panic flag, the word itself is
not executed, and the data stack is exactly unchanged: the dispatch reduces
to `error_comp_only`, which only sets the flag and logs the diagnostic.
Concretely, `5 ;` ends with the stack still `[5]`, the panic flag set and
one compile-only diagnostic. -/
theorem claim_C8_comp_only_interpreting :
    (∀ (fuel : Nat) (p : Processor) (nm sc : List Char) (wid : Nat) (w : Word),
      scan_word p.scan = (nm, sc) → nm ≠ [] →
      word_list_find p.heap p.dict nm = some wid →
      heapGet p wid = some w →
      p.compWord = none →
      check_flag w.flags FLAG_comp_only = true →
      proc_next fuel p = error_comp_only { p with scan := sc } nm) ∧
    runP "5 ;"
      =
      { proc_init with ds := [Value.num 5], panic := true,
                       errs := [ErrMsg.compOnly ";".data] } := by
  refine ⟨?_, by decide⟩
  intro fuel p nm sc wid w hsw hnm hfind hw hcw hco
  simp only [proc_next, hsw]
  rw [if_neg (by simpa using hnm)]
  simp only [heapGet, List.get?_eq_getElem?] at hw
  simp [heapGet, hfind, hw, hcw, hco]

/-- Claim C8, witness: the universal dispatch conjunct applied to a fresh
processor about to read `;`. -/
theorem claim_C8_witness :
    proc_next 3 { proc_init with scan := ";".data } = error_comp_only proc_init (";".data) :=
  claim_C8_comp_only_interpreting.1 3 { proc_init with scan := ";".data } (";".data) [] 4
    { name := ";".data, flags := (FLAG_code.lor (FLAG_immediate.lor FLAG_comp_only)),
      code := some Prim.pEnd, colon := [] }
    (by decide) (by decide) (by decide) (by decide) (by decide) (by decide)

/-- Claim C9: when the token after `'` names no findable dictionary word,
`'` reports nothing — the panic flag and the diagnostic log are untouched —
and it still pushes a cell holding the null execution reference onto the
data stack (`ds_push_xt` performs no null check). -/
theorem claim_C9_quote_unknown_silent :
    (∀ (p : Processor) (nm sc : List Char),
      scan_word p.scan = (nm, sc) →
      word_list_find p.heap p.dict nm = none →
      w_quote p = { p with scan := sc, ds := p.ds ++ [Value.xt none] }) ∧
    (runP "' nosuchword").ds = [Value.xt none] ∧
    (runP "' nosuchword").panic = false ∧
    (runP "' nosuchword").errs = [] := by
  refine ⟨?_, by decide, by decide, by decide⟩
  intro p nm sc hsw hf
  simp [w_quote, hsw, ds_push_xtP, ds_push, hf]

/-- Claim C9, witness: quoting an unknown name on a fresh processor pushes
the null token and changes nothing else. -/
theorem claim_C9_witness :
    w_quote { proc_init with scan := "nosuchword".data }
      = { proc_init with scan := [], ds := [Value.xt none] } :=
  claim_C9_quote_unknown_silent.1 { proc_init with scan := "nosuchword".data }
    ("nosuchword".data) [] (by decide) (by decide)

/-- Claim C7: every non-fatal error sets the sticky panic flag (the three
`error*` functions set it, and no step of token dispatch ever clears it),
and within one source chunk no further token is dispatched once the flag is
set — the token loop returns as soon as it observes the flag; the flag is
reset exactly when processing of a new chunk begins, `run_source` clearing
it on entry. -/
theorem claim_C7_sticky_panic :
    (∀ (p : Processor) (m : List Char),
      (error p m).panic = true ∧ (error_undef p m).panic = true
        ∧ (error_comp_only p m).panic = true) ∧
    (∀ (fuel : Nat) (p : Processor), p.panic = true → (proc_next fuel p).panic = true) ∧
    (∀ (fuel : Nat) (p : Processor), p.panic = true → run_loop fuel p = p) ∧
    (∀ (p : Processor) (source : List Char) (fuel : Nat),
      run_source p source fuel = run_loop fuel { p with panic := false, scan := source }) := by
  refine ⟨fun p m => ⟨rfl, rfl, rfl⟩, proc_next_panic, ?_, fun _ _ _ => rfl⟩
  intro fuel p h
  cases fuel with
  | zero => rfl
  | succ f => rw [run_loop]; simp [h]

/-- Claim C7, witness: after the chunk `5 ;` the panic flag is set; a
dispatch step would keep it set, and the token loop would stop at once. -/
theorem claim_C7_witness :
    (proc_next 3 (runP "5 ;")).panic = true ∧ run_loop 3 (runP "5 ;") = runP "5 ;" :=
  ⟨claim_C7_sticky_panic.2.1 3 _ (by decide), claim_C7_sticky_panic.2.2.1 3 _ (by decide)⟩

/-- Claim C3: compiling a literal appends exactly two cells to the target
word's body — an execution token for the hidden native `_push` word, then
the literal cell (first and second conjuncts); and when execution of a
compiled body reaches the `_push` token, the following cell is pushed onto
the data stack as plain data and the cursor lands two cells further, so the
literal cell is never dispatched as an instruction (third conjunct).
Concretely, `: k 7 ;` compiles `k` to the two-cell body
`[_push, 7]` and running `k` leaves `7` on the data stack. -/
theorem claim_C3_literal_inlining :
    (∀ (p : Processor) (wid : Nat) (w : Word) (v : Value),
      heapGet p wid = some w →
      heapGet (proc_comp_push p wid v) wid
        = some { w with colon := w.colon ++ [Value.xt (some p.wPush), v] }) ∧
    (∀ (fuel : Nat) (p : Processor) (nm sc : List Char) (v : Value) (cw : Nat),
      scan_word p.scan = (nm, sc) → nm ≠ [] →
      word_list_find p.heap p.dict nm = none →
      value_read nm = (v, true) →
      p.compWord = some cw →
      proc_next fuel p = proc_comp_push { p with scan := sc } cw v) ∧
    (∀ (f g : Nat) (p : Processor) (wid idx : Nat) (v : Value) (pw : Word),
      p.ip = some (wid, idx) →
      cellAt p wid idx = some (Value.xt (some p.wPush)) →
      cellAt p wid (idx + 1) = some v →
      idx + 1 < colonLen p wid →
      heapGet p p.wPush = some pw →
      check_flag pw.flags FLAG_code = true →
      pw.code = some Prim.pPush →
      exec_loop (fun q o => execute_word (f + 1) q o) (g + 1) p wid
        = exec_loop (fun q o => execute_word (f + 1) q o) g
            { p with ip := some (wid, idx + 2), ds := p.ds ++ [v] } wid) ∧
    (heapGet (runP ": k 7 ;") 34
      = some { name := "k".data, flags := 0, code := none,
               colon := [Value.xt (some 1), Value.num 7] }) ∧
    (runP ": k 7 ; k").ds = [Value.num 7] := by
  refine ⟨heapGet_comp_push, ?_, exec_loop_push_step, by decide, by decide⟩
  intro fuel p nm sc v cw hsw hnm hfind hv hcw
  simp only [proc_next, hsw]
  rw [if_neg (by simpa using hnm)]
  simp [hfind, hv, hcw]

/-- Claim C3, witness: the word `k` compiled from `: k 7 ;` — appending a
further literal appends exactly the marker-and-cell pair; dispatching the
literal token `8` in compile mode appends through `proc_comp_push`; and one
loop step at the `_push` marker of `k`'s body pushes `7` and skips to
cell 2. -/
theorem claim_C3_witness :
    (heapGet (proc_comp_push (runP ": k 7 ;") 34 (Value.num 9)) 34
      = some { name := "k".data, flags := 0, code := none,
               colon := [Value.xt (some 1), Value.num 7, Value.xt (some 1), Value.num 9] }) ∧
    (proc_next 5 { runP ": k 7 ;" with scan := "8".data, compWord := some 34 }
      = proc_comp_push { runP ": k 7 ;" with scan := [], compWord := some 34 } 34 (Value.num 8)) ∧
    (exec_loop (fun q o => execute_word 1 q o) 1 { runP ": k 7 ;" with ip := some (34, 0) } 34
      = exec_loop (fun q o => execute_word 1 q o) 0
          { runP ": k 7 ;" with ip := some (34, 2), ds := [Value.num 7] } 34) :=
  ⟨claim_C3_literal_inlining.1 (runP ": k 7 ;") 34
      { name := "k".data, flags := 0, code := none,
        colon := [Value.xt (some 1), Value.num 7] } (Value.num 9) (by decide),
   claim_C3_literal_inlining.2.1 5 { runP ": k 7 ;" with scan := "8".data, compWord := some 34 }
      ("8".data) [] (Value.num 8) 34 (by decide) (by decide) (by decide) (by decide) (by decide),
   claim_C3_literal_inlining.2.2.1 0 0 { runP ": k 7 ;" with ip := some (34, 0) } 34 0
      (Value.num 7)
      { name := "_push".data, flags := FLAG_code.lor FLAG_hidden,
        code := some Prim.pPush, colon := [] }
      (by decide) (by decide) (by decide) (by decide) (by decide) (by decide) (by decide)⟩

/-- Claim C4: `variable name` defines a word whose body is the four cells
`[push, A, exit, S]` with `S` a trailing zero data cell and `A` an address
cell pointing at `S` (first conjunct: for `variable v` the body is
`[_push, addr(34,3), exit, 0]` with `S` at cell 3).  Executing any word of
that shape pushes exactly the address cell and stops at `exit`, never
dispatching `S` (second conjunct: the run ends with only the address added
and the cursor trace `0 → 2 → halt`), so every invocation pushes the same
stable address: `variable v 7 v ! v @ .` prints `7`, and invoking `v` twice
pushes two equal address cells. -/
theorem claim_C4_variable_stable_address :
    (heapGet (runP "variable v") 34
      = some { name := "v".data, flags := 0, code := none,
               colon := [Value.xt (some 1), Value.addr 34 3, Value.xt (some 0), Value.num 0] }) ∧
    (∀ (f : Nat) (p : Processor) (wid x y : Nat) (w pw ew : Word) (s : Value),
      heapGet p wid = some w →
      check_flag w.flags FLAG_code = false →
      w.colon = [Value.xt (some p.wPush), Value.addr x y, Value.xt (some p.wExit), s] →
      heapGet p p.wPush = some pw →
      check_flag pw.flags FLAG_code = true → pw.code = some Prim.pPush →
      heapGet p p.wExit = some ew →
      check_flag ew.flags FLAG_code = true → ew.code = some Prim.pExit →
      execute_word (f + 3) p (some wid)
        = { p with ds := p.ds ++ [Value.addr x y], rs := [] }) ∧
    (runP "variable v 7 v ! v @ .").out = "7".data ∧
    (runP "variable v 7 v ! v @ .").panic = false ∧
    (runP "variable v v v").ds = [Value.addr 34 3, Value.addr 34 3] := by
  refine ⟨by decide, ?_, by decide, by decide, by decide⟩
  intro f p wid x y w pw ew s hw hcode hcolon hpw hpf hpc hew hef hec
  have hwP : heapGet { p with ip := some (wid, 0) } wid = some w := hw
  have hcell0 : cellAt { p with ip := some (wid, 0) } wid 0
      = some (Value.xt (some p.wPush)) := by
    simp [cellAt, hwP, hcolon]
  have hcell1 : cellAt { p with ip := some (wid, 0) } wid (0 + 1)
      = some (Value.addr x y) := by
    simp [cellAt, hwP, hcolon]
  have hlen : (0 : Nat) + 1 < colonLen { p with ip := some (wid, 0) } wid := by
    simp [colonLen, hwP, hcolon]
  rw [execute_word]
  simp only [hw, hcode, Bool.false_eq_true, if_false, hcolon]
  norm_num
  have hstep := exec_loop_push_step (f + 1) (f + 1) { p with ip := some (wid, 0) } wid 0
    (Value.addr x y) pw rfl hcell0 hcell1 hlen
    (by exact hpw) hpf hpc
  rw [hstep]
  dsimp only
  rw [Nat.zero_add]
  have hipP1 : ({ p with ip := some (wid, 2), ds := p.ds ++ [Value.addr x y] } : Processor).ip
      = some (wid, 2) := rfl
  have hltP1 : (2 : Nat) < colonLen
      { p with ip := some (wid, 2), ds := p.ds ++ [Value.addr x y] } wid := by
    have hwQ : heapGet ({ p with ip := some (wid, 2), ds := p.ds ++ [Value.addr x y] } : Processor)
        wid = some w := hw
    simp [colonLen, hwQ, hcolon]
  have hcellP1 : cellAt { p with ip := some (wid, 2), ds := p.ds ++ [Value.addr x y] } wid 2
      = some (Value.xt (some p.wExit)) := by
    have hwQ : heapGet ({ p with ip := some (wid, 2), ds := p.ds ++ [Value.addr x y] } : Processor)
        wid = some w := hw
    simp [cellAt, hwQ, hcolon]
  rw [exec_loop_exit_step (f + 1) f { p with ip := some (wid, 2), ds := p.ds ++ [Value.addr x y] }
    wid 2 ew hipP1 hltP1 hcellP1 (by exact hew) hef hec]
  simp

/-- Claim C4, witness: executing `v` right after `variable v` pushes the
address cell `(34, 3)` and nothing else. -/
theorem claim_C4_witness :
    execute_word 3 (runP "variable v") (some 34)
      = { runP "variable v" with ds := [Value.addr 34 3], rs := [] } :=
  claim_C4_variable_stable_address.2.1 0 (runP "variable v") 34 34 3
    { name := "v".data, flags := 0, code := none,
      colon := [Value.xt (some 1), Value.addr 34 3, Value.xt (some 0), Value.num 0] }
    { name := "_push".data, flags := FLAG_code.lor FLAG_hidden,
      code := some Prim.pPush, colon := [] }
    { name := "exit".data, flags := FLAG_code.lor 0, code := some Prim.pExit, colon := [] }
    (Value.num 0)
    (by decide) (by decide) (by decide) (by decide) (by decide) (by decide)
    (by decide) (by decide) (by decide)

/-- Claim C5: redefining a name shadows, but does not rebind, earlier uses.
Lookup returns the newest non-hidden entry (first conjunct: front-to-back
scan over the chain, most recent first).  After `: f 1 ; : g f ; : f 2 ;`
the lookup of `f` returns the new word (index 36) while `g`'s already
compiled body still holds the execution token of the old `f` (index 34) by
identity, and the old word is unchanged — so `g .` prints `1` and `f .`
prints `2`. -/
theorem claim_C5_redefinition_shadows :
    (∀ (heap : List Word) (nm : List Char) (pre : List Nat) (wid : Nat) (post : List Nat)
        (w : Word),
      (∀ i ∈ pre, ∃ wi, heap.get? i = some wi ∧
        (check_flag wi.flags FLAG_hidden = true ∨ nameEq wi.name nm = false)) →
      heap.get? wid = some w →
      check_flag w.flags FLAG_hidden = false →
      nameEq w.name nm = true →
      word_list_find heap (pre ++ wid :: post) nm = some wid) ∧
    (word_list_find (runP ": f 1 ; : g f ; : f 2 ;").heap (runP ": f 1 ; : g f ; : f 2 ;").dict
        ("f".data) = some 36) ∧
    (heapGet (runP ": f 1 ; : g f ; : f 2 ;") 35
      = some { name := "g".data, flags := 0, code := none, colon := [Value.xt (some 34)] }) ∧
    (heapGet (runP ": f 1 ; : g f ; : f 2 ;") 34
      = some { name := "f".data, flags := 0, code := none,
               colon := [Value.xt (some 1), Value.num 1] }) ∧
    (runP ": f 1 ; : g f ; : f 2 ; g .").out = "1".data ∧
    (run_source (runP ": f 1 ; : g f ; : f 2 ; g .") ("f .".data) 100).out = "12".data := by
  exact ⟨fun heap nm => word_list_find_first heap nm, by decide, by decide, by decide,
    by decide, by decide⟩

/-- Claim C5, witness: in the dictionary left by `: f 1 ; : g f ; : f 2 ;`,
looking `g` up past the newer non-matching entry 36 returns 35. -/
theorem claim_C5_witness :
    word_list_find (runP ": f 1 ; : g f ; : f 2 ;").heap ([36] ++ 35 :: [34]) ("g".data)
      = some 35 :=
  claim_C5_redefinition_shadows.1 (runP ": f 1 ; : g f ; : f 2 ;").heap ("g".data) [36] 35 [34]
    { name := "g".data, flags := 0, code := none, colon := [Value.xt (some 34)] }
    (fun i hi => by
      have hi36 : i = 36 := by simpa using hi
      subst hi36
      exact ⟨{ name := "f".data, flags := 0, code := none,
               colon := [Value.xt (some 1), Value.num 2] }, by decide, Or.inr (by decide)⟩)
    (by decide) (by decide) (by decide)

end BKF
